import Mathlib

/-!
Shallow embedding of `src/nn/transformer/layers.py` (RT-DETRv3 transformer
building blocks): MLP, MultiHeadAttention, MSDeformableAttention and
PositionEmbedding, together with theorems checking the specification's
claims about them.

Conventions:
* real-valued tensors are curried functions `ℕ → ⋯ → ℝ` (or `ℚ` where the
  computation is exact), indexed exactly as the PyTorch views index them;
* shape-level behaviour of `view`/reshape is modelled by a separate shape
  calculus returning `Except String`;
* Python `raise` / failing `assert` is modelled by `Except.error`.
-/

namespace RTDetr

open Finset

/-- `e.isOk` mirrors "the Python call returned normally". -/
def isOk {α : Type} : Except String α → Bool
  | .ok _ => true
  | .error _ => false

/-! ### Linear layers (`nn.Linear`) -/

/-- A linear layer over `ℚ`: `weight` is a list of rows, `bias` a list of
per-output biases, as in `nn.Linear(in_features, out_features)`. -/
structure LinearQ where
  weight : List (List ℚ)
  bias : List ℚ

/-- Dot product of two rational vectors (shorter length wins, as a total model
of the equal-length case). -/
def dotQ : List ℚ → List ℚ → ℚ
  | [], _ => 0
  | _, [] => 0
  | a :: as, b :: bs => a * b + dotQ as bs

/-- `y = x Wᵀ + b`, one output per weight row. -/
def LinearQ.apply (L : LinearQ) (x : List ℚ) : List ℚ :=
  List.zipWith (fun w b => dotQ w x + b) L.weight L.bias

/-- `F.relu` on a rational vector. -/
def reluQ (x : List ℚ) : List ℚ := x.map (fun a => max a 0)

/-- A linear layer over `ℝ` acting on `ℕ`-indexed vectors: output `o` of
input `x` with `inF` input features is `∑ j < inF, weight o j * x j + bias o`. -/
structure LinearR where
  weight : ℕ → ℕ → ℝ
  bias : ℕ → ℝ

/-- Apply an `ℝ`-linear layer with `inF` input features. -/
noncomputable def LinearR.apply (L : LinearR) (inF : ℕ) (x : ℕ → ℝ) (o : ℕ) : ℝ :=
  (∑ j ∈ range inF, L.weight o j * x j) + L.bias o

/-! ### MLP (`layers.py` lines 13–28) -/

/-- The `MLP` module: `num_layers` as stored in `self.num_layers`, and the
`nn.ModuleList` of linear sub-layers. -/
structure MLP where
  num_layers : ℕ
  layers : List LinearQ

/-- `MLP.forward`: `for i, layer in enumerate(self.layers): x = F.relu(layer(x))
if i < self.num_layers - 1 else layer(x)`. -/
def MLP.forward (m : MLP) (x : List ℚ) : List ℚ :=
  m.layers.enum.foldl
    (fun acc il => if il.1 < m.num_layers - 1 then reluQ (il.2.apply acc) else il.2.apply acc) x

/-- Modelled from the spec's words for comparison with `MLP.forward`:
"applies each sub-layer in sequence, with a rectified-linear nonlinearity
after every sub-layer except the last". -/
def specChainApply : List LinearQ → List ℚ → List ℚ
  | [], x => x
  | [l], x => l.apply x
  | l :: l2 :: rest, x => specChainApply (l2 :: rest) (reluQ (l.apply x))

/-! ### MultiHeadAttention construction and shapes (`layers.py` lines 31–96) -/

/-- Hyperparameters of a constructed `MultiHeadAttention` module. -/
structure MultiHeadAttentionCfg where
  d_model : ℕ
  nhead : ℕ
  head_dim : ℕ

/-- `MultiHeadAttention.__init__`: `head_dim = d_model // nhead` (Python `//`
on a zero `nhead` raises `ZeroDivisionError`), then
`assert head_dim * nhead == d_model`. -/
def MultiHeadAttention.construct (d_model nhead : ℕ) : Except String MultiHeadAttentionCfg :=
  if nhead = 0 then .error "ZeroDivisionError: integer division or modulo by zero"
  else
    let head_dim := d_model / nhead
    if head_dim * nhead = d_model then .ok ⟨d_model, nhead, head_dim⟩
    else .error "AssertionError: d_model must be divisible by nhead"

/-- `(batch, seq_len, channels)` of a rank-3 tensor. -/
abbrev Shape3 := ℕ × ℕ × ℕ

/-- Shape-level model of `MultiHeadAttention.forward` (lines 63–96):
`batch_size, seq_len` are read from `query.shape`; each projection needs the
trailing dimension to be `d_model`; each
`.view(batch_size, seq_len, nhead, head_dim)` needs the element count of the
(contiguous) projected tensor to equal `batch_size*seq_len*nhead*head_dim`.
All later ops are shape-determined; the result is
`(batch_size, seq_len, d_model)`. -/
def MultiHeadAttention.forwardShape (cfg : MultiHeadAttentionCfg) (qs ks vs : Shape3) :
    Except String Shape3 :=
  let batch_size := qs.1
  let seq_len := qs.2.1
  if qs.2.2 ≠ cfg.d_model then .error "q_proj: input feature size mismatch"
  else if ks.2.2 ≠ cfg.d_model then .error "k_proj: input feature size mismatch"
  else if vs.2.2 ≠ cfg.d_model then .error "v_proj: input feature size mismatch"
  else if batch_size * seq_len * cfg.d_model ≠
      batch_size * seq_len * (cfg.nhead * cfg.head_dim) then
    .error "view q: shape is invalid for input size"
  else if ks.1 * ks.2.1 * cfg.d_model ≠
      batch_size * seq_len * (cfg.nhead * cfg.head_dim) then
    .error "view k: shape is invalid for input size"
  else if vs.1 * vs.2.1 * cfg.d_model ≠
      batch_size * seq_len * (cfg.nhead * cfg.head_dim) then
    .error "view v: shape is invalid for input size"
  else .ok (batch_size, seq_len, cfg.d_model)

/-! ### MultiHeadAttention numerics (`layers.py` lines 63–96) -/

/-- `F.softmax` along an axis of length `n`:
`softmaxR n f i = exp (f i) / ∑ j < n, exp (f j)`. -/
noncomputable def softmaxR (n : ℕ) (f : ℕ → ℝ) (i : ℕ) : ℝ :=
  Real.exp (f i) / ∑ j ∈ range n, Real.exp (f j)

/-- Per-head query rows after `q_proj(query).view(bs, seq, nhead, head_dim)
.transpose(1, 2)`: head `h`, channel `k` reads flat channel `h*head_dim + k`. -/
noncomputable def mhaHeads (cfg : MultiHeadAttentionCfg) (W : LinearR)
    (x : ℕ → ℕ → ℕ → ℝ) (b h n k : ℕ) : ℝ :=
  W.apply cfg.d_model (x b n) (h * cfg.head_dim + k)

/-- `scores = torch.matmul(q, k.transpose(-2, -1)) / math.sqrt(self.head_dim)`. -/
noncomputable def mhaScores (cfg : MultiHeadAttentionCfg) (Wq Wk : LinearR)
    (query key : ℕ → ℕ → ℕ → ℝ) (b h n m : ℕ) : ℝ :=
  (∑ k ∈ range cfg.head_dim, mhaHeads cfg Wq query b h n k * mhaHeads cfg Wk key b h m k) /
    Real.sqrt cfg.head_dim

/-- `if attn_mask is not None: scores = scores + attn_mask`. -/
noncomputable def mhaMaskedScores (cfg : MultiHeadAttentionCfg) (Wq Wk : LinearR)
    (query key : ℕ → ℕ → ℕ → ℝ) (mask : Option (ℕ → ℕ → ℕ → ℕ → ℝ)) (b h n m : ℕ) : ℝ :=
  match mask with
  | none => mhaScores cfg Wq Wk query key b h n m
  | some a => mhaScores cfg Wq Wk query key b h n m + a b h n m

/-- `attn_weights = F.softmax(scores, dim=-1)` over the key axis of length
`seq_len` (dropout is the identity at inference). -/
noncomputable def mhaAttnWeights (cfg : MultiHeadAttentionCfg) (Wq Wk : LinearR)
    (query key : ℕ → ℕ → ℕ → ℝ) (mask : Option (ℕ → ℕ → ℕ → ℕ → ℝ))
    (seq_len b h n m : ℕ) : ℝ :=
  softmaxR seq_len (mhaMaskedScores cfg Wq Wk query key mask b h n) m

/-- `attn_output = torch.matmul(attn_weights, v)`, heads re-concatenated by
`transpose(1,2).view(bs, seq, d_model)`, then `out_proj`. -/
noncomputable def mhaOutput (cfg : MultiHeadAttentionCfg) (Wq Wk Wv Wo : LinearR)
    (query key value : ℕ → ℕ → ℕ → ℝ) (mask : Option (ℕ → ℕ → ℕ → ℕ → ℝ))
    (seq_len b n o : ℕ) : ℝ :=
  Wo.apply cfg.d_model
    (fun j =>
      ∑ m ∈ range seq_len,
        mhaAttnWeights cfg Wq Wk query key mask seq_len b (j / cfg.head_dim) n m *
          mhaHeads cfg Wv value b (j / cfg.head_dim) m (j % cfg.head_dim)) o

/-! ### MSDeformableAttention construction (`layers.py` lines 99–127) -/

/-- Hyperparameters of a constructed `MSDeformableAttention` module. -/
structure MSDeformableAttentionCfg where
  d_model : ℕ
  n_heads : ℕ
  n_levels : ℕ
  n_points : ℕ

/-- `MSDeformableAttention.__init__`: `if d_model % n_heads != 0: raise
ValueError(...)` (Python `%` with a zero `n_heads` raises
`ZeroDivisionError` first). -/
def MSDeformableAttention.construct (d_model n_heads n_levels n_points : ℕ) :
    Except String MSDeformableAttentionCfg :=
  if n_heads = 0 then .error "ZeroDivisionError: integer division or modulo by zero"
  else if d_model % n_heads ≠ 0 then
    .error "ValueError: d_model must be divisible by n_heads"
  else .ok ⟨d_model, n_heads, n_levels, n_points⟩

/-! ### MSDeformableAttention forward (`layers.py` lines 156–217) -/

/-- Raw sampling-offset tensor after
`self.sampling_offsets(query).view(bs, len_q, n_heads, n_levels, n_points, 2)`:
entry `(b,q,h,l,p,c)` reads flat output `((h*n_levels + l)*n_points + p)*2 + c`
of the linear layer. -/
noncomputable def msdaSamplingOffsets (cfg : MSDeformableAttentionCfg) (W : LinearR)
    (query : ℕ → ℕ → ℕ → ℝ) (b q h l p c : ℕ) : ℝ :=
  W.apply cfg.d_model (query b q) (((h * cfg.n_levels + l) * cfg.n_points + p) * 2 + c)

/-- Attention-weight logits after
`self.attention_weights(query).view(bs, len_q, n_heads, n_levels*n_points)`:
entry `(b,q,h,k)` reads flat output `h*(n_levels*n_points) + k`. -/
noncomputable def msdaAttnLogits (cfg : MSDeformableAttentionCfg) (W : LinearR)
    (query : ℕ → ℕ → ℕ → ℝ) (b q h k : ℕ) : ℝ :=
  W.apply cfg.d_model (query b q) (h * (cfg.n_levels * cfg.n_points) + k)

/-- `F.softmax(attention_weights, dim=-1)` over the combined
`n_levels*n_points` axis, then `.view(bs, len_q, n_heads, n_levels, n_points)`:
entry `(b,q,h,l,p)` is softmax component `l*n_points + p`. -/
noncomputable def msdaAttnWeights (cfg : MSDeformableAttentionCfg) (W : LinearR)
    (query : ℕ → ℕ → ℕ → ℝ) (b q h l p : ℕ) : ℝ :=
  softmaxR (cfg.n_levels * cfg.n_points) (msdaAttnLogits cfg W query b q h)
    (l * cfg.n_points + p)

/-- `value_spatial_shapes.flip([1])`: reverse each `(H, W)` row of the
`(n_levels, 2)` shape tensor, giving `(W, H)`. -/
def flipShapes (shapes : ℕ → ℕ → ℕ) (l c : ℕ) : ℕ := shapes l (1 - c)

/-- Sampling locations for `reference_points.shape[-1] == 2` (lines 187–191):
`reference_points.view(bs, len_q, 1, n_levels, 1, 2) + sampling_offsets /
offset_normalizer` with `offset_normalizer = value_spatial_shapes.flip([1])`.
`shapes l 0` is `H_l` and `shapes l 1` is `W_l`. -/
noncomputable def samplingLocations2 (ref : ℕ → ℕ → ℕ → ℕ → ℝ)
    (offsets : ℕ → ℕ → ℕ → ℕ → ℕ → ℕ → ℝ) (shapes : ℕ → ℕ → ℕ)
    (b q h l p c : ℕ) : ℝ :=
  ref b q l c + offsets b q h l p c / (flipShapes shapes l c : ℝ)

/-- Sampling locations for `reference_points.shape[-1] == 4` (lines 192–196):
`reference_points[:, :, None, :, None, :2] + sampling_offsets / n_points *
reference_points[:, :, None, :, None, 2:] * 0.5`. -/
noncomputable def samplingLocations4 (cfg : MSDeformableAttentionCfg)
    (ref : ℕ → ℕ → ℕ → ℕ → ℝ) (offsets : ℕ → ℕ → ℕ → ℕ → ℕ → ℕ → ℝ)
    (b q h l p c : ℕ) : ℝ :=
  ref b q l c + offsets b q h l p c / (cfg.n_points : ℝ) * ref b q l (c + 2) * 0.5

/-! ### The sampling core (`layers.py` lines 219–256) and `F.grid_sample` -/

/-- `sampling_grids = 2 * sampling_locations - 1` (line 231). -/
noncomputable def samplingGrids (loc : ℕ → ℕ → ℕ → ℕ → ℕ → ℕ → ℝ)
    (b q h l p c : ℕ) : ℝ :=
  2 * loc b q h l p c - 1

/-- A pixel read with the zero-padding boundary policy: inside
`[0,W) × [0,H)` read `v`, outside read `0`. -/
def gsPix {K : Type} [LinearOrderedField K] (H W : ℕ) (v : ℤ → ℤ → K) (yy xx : ℤ) : K :=
  if 0 ≤ xx ∧ xx < (W : ℤ) ∧ 0 ≤ yy ∧ yy < (H : ℤ) then v yy xx else 0

/-- Linear interpolation of one row at unnormalized coordinate `ix`:
weights `1 - (ix - ⌊ix⌋)` and `ix - ⌊ix⌋` on columns `⌊ix⌋` and `⌊ix⌋ + 1`. -/
def gsRow {K : Type} [LinearOrderedField K] [FloorRing K] (row : ℤ → K) (ix : K) : K :=
  (1 - (ix - (⌊ix⌋ : K))) * row ⌊ix⌋ + (ix - (⌊ix⌋ : K)) * row (⌊ix⌋ + 1)

/-- Bilinear interpolation at unnormalized coordinates `(ix, iy)` with
zero padding. -/
def gsInterp {K : Type} [LinearOrderedField K] [FloorRing K] (H W : ℕ)
    (v : ℤ → ℤ → K) (ix iy : K) : K :=
  (1 - (iy - (⌊iy⌋ : K))) * gsRow (gsPix H W v ⌊iy⌋) ix +
    (iy - (⌊iy⌋ : K)) * gsRow (gsPix H W v (⌊iy⌋ + 1)) ix

/-- `F.grid_sample(value, grid, mode='bilinear', padding_mode='zeros',
align_corners=False)` at one grid point `(gx, gy)` over one `(H, W)` channel
plane: unnormalize each coordinate by `ix = ((gx + 1) * W - 1) / 2`
(`align_corners=False`), then interpolate bilinearly with zero padding. -/
def gridSample {K : Type} [LinearOrderedField K] [FloorRing K] (H W : ℕ)
    (v : ℤ → ℤ → K) (gx gy : K) : K :=
  gsInterp H W v (((gx + 1) * (W : K) - 1) / 2) (((gy + 1) * (H : K) - 1) / 2)

/-- `value.split([H * W for H, W in value_spatial_shapes], dim=1)`: level `l`
starts at token `∑ j < l, H_j * W_j` of the flattened value sequence. -/
def levelStart (shapes : ℕ → ℕ → ℕ) (l : ℕ) : ℕ :=
  ∑ j ∈ range l, shapes j 0 * shapes j 1

/-- `MSDeformableAttention._deformable_attention_core_func` (lines 219–256).
`value (b, token, h, ch)` is the per-head projected value sequence, `c` the
per-head channel count read from `value.shape`; output channel `j` of query
`q` is head `j / c`, channel `j % c` (the `view(bs, n_heads*c, len_q)`
concatenation). `value_level_start_index` is accepted but never read: level
slicing uses `levelStart` computed from `value_spatial_shapes`. Grid axis 0
is x (width), axis 1 is y (height); row `i`, column `jj` of level `l` is
flattened token `levelStart + i * W_l + jj`. -/
noncomputable def msdaCoreFunc (cfg : MSDeformableAttentionCfg) (c : ℕ)
    (value : ℕ → ℕ → ℕ → ℕ → ℝ) (shapes : ℕ → ℕ → ℕ)
    (value_level_start_index : ℕ → ℕ)
    (loc : ℕ → ℕ → ℕ → ℕ → ℕ → ℕ → ℝ)
    (attnW : ℕ → ℕ → ℕ → ℕ → ℕ → ℝ) (b q j : ℕ) : ℝ :=
  ∑ l ∈ range cfg.n_levels, ∑ p ∈ range cfg.n_points,
    attnW b q (j / c) l p *
      gridSample (shapes l 0) (shapes l 1)
        (fun yy xx => value b (levelStart shapes l + (yy.toNat * shapes l 1 + xx.toNat))
          (j / c) (j % c))
        (samplingGrids loc b q (j / c) l p 0) (samplingGrids loc b q (j / c) l p 1)

/-- `MSDeformableAttention.forward` (lines 156–217). `refDim` is
`reference_points.shape[-1]`; the projected, optionally masked value sequence
is viewed per head (`value.view(bs, len_v, n_heads, -1)` with
`headCh = d_model // n_heads` channels per head at ratio 1). The two
`try`/`except` branches run the identical core, so a single call models both. -/
noncomputable def msdaForward (cfg : MSDeformableAttentionCfg)
    (Wv Woff Wattn Wout : LinearR)
    (query : ℕ → ℕ → ℕ → ℝ) (ref : ℕ → ℕ → ℕ → ℕ → ℝ) (refDim : ℕ)
    (value : ℕ → ℕ → ℕ → ℝ) (shapes : ℕ → ℕ → ℕ)
    (value_level_start_index : ℕ → ℕ)
    (value_mask : Option (ℕ → ℕ → ℝ)) : Except String (ℕ → ℕ → ℕ → ℝ) :=
  let headCh := cfg.d_model / cfg.n_heads
  let valueProj : ℕ → ℕ → ℕ → ℝ := fun b t j =>
    match value_mask with
    | none => Wv.apply cfg.d_model (value b t) j
    | some msk => Wv.apply cfg.d_model (value b t) j * msk b t
  let valueHeads : ℕ → ℕ → ℕ → ℕ → ℝ := fun b t h ch => valueProj b t (h * headCh + ch)
  let offsets := msdaSamplingOffsets cfg Woff query
  let weights := msdaAttnWeights cfg Wattn query
  if refDim = 2 then
    .ok (fun b q o =>
      Wout.apply cfg.d_model
        (msdaCoreFunc cfg headCh valueHeads shapes value_level_start_index
          (samplingLocations2 ref offsets shapes) weights b q) o)
  else if refDim = 4 then
    .ok (fun b q o =>
      Wout.apply cfg.d_model
        (msdaCoreFunc cfg headCh valueHeads shapes value_level_start_index
          (samplingLocations4 cfg ref offsets) weights b q) o)
  else
    .error ("ValueError: Last dim of reference_points must be 2 or 4, got " ++ toString refDim)

/-! ### PositionEmbedding (`layers.py` lines 259–277) -/

/-- `div_term = exp(arange(0, d_model, 2) * (-log(10000.0) / d_model))`:
component `i` is `exp(2i * (-log 10000 / d_model))`. -/
noncomputable def PositionEmbedding.divTerm (d_model i : ℕ) : ℝ :=
  Real.exp ((2 * i : ℕ) * (-Real.log 10000 / (d_model : ℝ)))

/-- The precomputed `(max_len, d_model)` table `pe`:
`pe[:, 0::2] = sin(position * div_term)`, `pe[:, 1::2] = cos(position *
div_term)`; positions at or beyond `max_len` have no row (modelled as `0`). -/
noncomputable def PositionEmbedding.pe (d_model max_len pos c : ℕ) : ℝ :=
  if pos < max_len then
    if c % 2 = 0 then Real.sin (pos * PositionEmbedding.divTerm d_model (c / 2))
    else Real.cos (pos * PositionEmbedding.divTerm d_model (c / 2))
  else 0

/-- `PositionEmbedding.forward`: `x + self.pe[:, :x.size(1)]` — the table row
of sequence position `s` is added to every batch element. -/
noncomputable def PositionEmbedding.forward (d_model max_len : ℕ)
    (x : ℕ → ℕ → ℕ → ℝ) (b s c : ℕ) : ℝ :=
  x b s c + PositionEmbedding.pe d_model max_len s c

/-! ## Helper lemmas -/

/-- A softmax over a nonempty axis sums to `1`. -/
theorem softmaxR_sum (n : ℕ) (hn : 0 < n) (f : ℕ → ℝ) :
    ∑ i ∈ range n, softmaxR n f i = 1 := by
  unfold softmaxR
  rw [← Finset.sum_div]
  refine div_self ?_
  have hpos : 0 < ∑ j ∈ range n, Real.exp (f j) :=
    Finset.sum_pos (fun j _ => Real.exp_pos _)
      (Finset.nonempty_range_iff.mpr hn.ne')
  exact hpos.ne'

/-- Reindexing a double sum over `range L × range P` as a single sum over
`range (L * P)` via `k = l * P + p`. -/
theorem sum_range_mul_sum (L P : ℕ) (f : ℕ → ℝ) :
    ∑ l ∈ range L, ∑ p ∈ range P, f (l * P + p) = ∑ k ∈ range (L * P), f k := by
  induction L with
  | zero => simp
  | succ L ih =>
    rw [Finset.sum_range_succ, ih, Nat.succ_mul,
      ← Finset.sum_range_add_sum_Ico f (Nat.le_add_right (L * P) P)]
    congr 1
    rw [Finset.sum_Ico_eq_sum_range]
    simp

/-- Unrolling the `enumerate` fold of `MLP.forward` against the spec's
sequential chain, for an arbitrary starting index. -/
theorem mlp_fold_aux (N : ℕ) (ls : List LinearQ) : ∀ (k : ℕ) (x : List ℚ),
    k + ls.length = N →
    List.foldl
      (fun acc (il : ℕ × LinearQ) =>
        if il.1 < N - 1 then reluQ (il.2.apply acc) else il.2.apply acc)
      x (ls.enumFrom k) = specChainApply ls x := by
  induction ls with
  | nil => intro k x _; simp [List.enumFrom, specChainApply]
  | cons l rest ih =>
    intro k x h
    cases rest with
    | nil =>
      have hk : ¬ (k < N - 1) := by simp at h; omega
      simp [List.enumFrom, specChainApply, hk]
    | cons l2 rest2 =>
      have hk : k < N - 1 := by simp at h; omega
      have h2 : (k + 1) + (l2 :: rest2).length = N := by simp at h ⊢; omega
      simpa [List.enumFrom, specChainApply, hk] using ih (k + 1) (reluQ (l.apply x)) h2

/-- Success condition of the `MultiHeadAttention.forward` shape model. -/
theorem mha_forwardShape_isOk_iff (cfg : MultiHeadAttentionCfg) (qs ks vs : Shape3) :
    isOk (MultiHeadAttention.forwardShape cfg qs ks vs) = true ↔
      (qs.2.2 = cfg.d_model ∧ ks.2.2 = cfg.d_model ∧ vs.2.2 = cfg.d_model ∧
        qs.1 * qs.2.1 * cfg.d_model = qs.1 * qs.2.1 * (cfg.nhead * cfg.head_dim) ∧
        ks.1 * ks.2.1 * cfg.d_model = qs.1 * qs.2.1 * (cfg.nhead * cfg.head_dim) ∧
        vs.1 * vs.2.1 * cfg.d_model = qs.1 * qs.2.1 * (cfg.nhead * cfg.head_dim)) := by
  by_cases h1 : qs.2.2 = cfg.d_model <;>
    by_cases h2 : ks.2.2 = cfg.d_model <;>
      by_cases h3 : vs.2.2 = cfg.d_model <;>
        by_cases h4 : qs.1 * qs.2.1 * cfg.d_model = qs.1 * qs.2.1 * (cfg.nhead * cfg.head_dim) <;>
          by_cases h5 : ks.1 * ks.2.1 * cfg.d_model =
              qs.1 * qs.2.1 * (cfg.nhead * cfg.head_dim) <;>
            by_cases h6 : vs.1 * vs.2.1 * cfg.d_model =
                qs.1 * qs.2.1 * (cfg.nhead * cfg.head_dim) <;>
              simp [MultiHeadAttention.forwardShape, isOk, h1, h2, h3, h4, h5, h6]

/-! ## Claim theorems -/

/-- C6: constructing `MultiHeadAttention` with `d_model` not divisible by
`nhead`, or `MSDeformableAttention` with `d_model` not divisible by `n_heads`,
raises at construction; when divisibility holds, construction succeeds. -/
theorem construct_divisibility (d n L P : ℕ) (hn : 0 < n) :
    (isOk (MultiHeadAttention.construct d n) = true ↔ n ∣ d) ∧
    (isOk (MSDeformableAttention.construct d n L P) = true ↔ n ∣ d) := by
  have h0 : ¬ (n = 0) := hn.ne'
  constructor
  · by_cases hd : n ∣ d
    · simp [MultiHeadAttention.construct, isOk, h0, Nat.div_mul_cancel hd, hd]
    · have hne : ¬ (d / n * n = d) := by
        intro he
        exact hd ⟨d / n, by rw [mul_comm] at he; exact he.symm⟩
      simp [MultiHeadAttention.construct, isOk, h0, hne, hd]
  · by_cases hd : n ∣ d
    · simp [MSDeformableAttention.construct, isOk, h0, Nat.eq_zero_of_dvd_of_lt, hd,
        Nat.mod_eq_zero_of_dvd hd]
    · have hne : ¬ (d % n = 0) := fun he => hd (Nat.dvd_of_mod_eq_zero he)
      simp [MSDeformableAttention.construct, isOk, h0, hne, hd]

theorem construct_divisibility_witness :
    (0 < 2) ∧ isOk (MultiHeadAttention.construct 8 2) = true ∧
      isOk (MSDeformableAttention.construct 8 2 4 4) = true :=
  ⟨by decide,
    (construct_divisibility 8 2 4 4 (by decide)).1.mpr ⟨4, rfl⟩,
    (construct_divisibility 8 2 4 4 (by decide)).2.mpr ⟨4, rfl⟩⟩

/-- C8: with its `num_layers` sub-layers, `MLP.forward` applies the sub-layers
in sequence with ReLU after every one except the last; with `num_layers = 1`
it is a single affine transform with no nonlinearity. -/
theorem mlp_forward_chain (m : MLP) (x : List ℚ) (hlen : m.layers.length = m.num_layers) :
    MLP.forward m x = specChainApply m.layers x ∧
    (∀ l : LinearQ, m.layers = [l] → MLP.forward m x = l.apply x) := by
  have main : MLP.forward m x = specChainApply m.layers x := by
    unfold MLP.forward
    simpa [List.enum] using mlp_fold_aux m.num_layers m.layers 0 x (by simpa using hlen)
  refine ⟨main, fun l hl => ?_⟩
  rw [main, hl]
  rfl

theorem mlp_forward_chain_witness :
    MLP.forward ⟨2, [⟨[[2]], [1]⟩, ⟨[[3]], [0]⟩]⟩ [5] =
      specChainApply [⟨[[2]], [1]⟩, ⟨[[3]], [0]⟩] [5] ∧
    MLP.forward ⟨1, [⟨[[2]], [1]⟩]⟩ [5] = LinearQ.apply ⟨[[2]], [1]⟩ [5] ∧
    MLP.forward ⟨2, [⟨[[2]], [1]⟩, ⟨[[3]], [0]⟩]⟩ [5] = [33] :=
  ⟨(mlp_forward_chain ⟨2, [⟨[[2]], [1]⟩, ⟨[[3]], [0]⟩]⟩ [5] (by decide)).1,
    (mlp_forward_chain ⟨1, [⟨[[2]], [1]⟩]⟩ [5] (by decide)).2 _ rfl,
    by norm_num [MLP.forward, List.enum, List.enumFrom, LinearQ.apply, reluQ, dotQ]⟩

/-- C10 counterexample: key/value whose shape differs from the query's, yet
`MultiHeadAttention.forward`'s reshapes all succeed (equal element counts),
so the forward computation is well-defined — refuting "well-defined only when
key and value have exactly the same shape as query". -/
theorem mha_forwardShape_mismatch_ok :
    MultiHeadAttention.forwardShape ⟨2, 1, 2⟩ (2, 3, 2) (3, 2, 2) (3, 2, 2) =
      Except.ok (2, 3, 2) ∧ ((3, 2, 2) : Shape3) ≠ (2, 3, 2) :=
  ⟨rfl, by decide⟩

/-- C10 (amended): the reshapes read `batch_size, seq_len` from the query, so
forward is well-defined iff key and value have trailing dimension `d_model`
and element count `batch*seq_len` equal to the query's; in particular a
key/value sequence of a different length (same positive batch) makes the
reshape fail. -/
theorem mha_forwardShape_contract (cfg : MultiHeadAttentionCfg) (bs len : ℕ)
    (ks vs : Shape3) (hinv : cfg.nhead * cfg.head_dim = cfg.d_model)
    (hd : 0 < cfg.d_model) :
    (isOk (MultiHeadAttention.forwardShape cfg (bs, len, cfg.d_model) ks vs) = true ↔
      ks.2.2 = cfg.d_model ∧ vs.2.2 = cfg.d_model ∧
        ks.1 * ks.2.1 = bs * len ∧ vs.1 * vs.2.1 = bs * len) ∧
    (∀ lk, 0 < bs → lk ≠ len →
      isOk (MultiHeadAttention.forwardShape cfg (bs, len, cfg.d_model)
        (bs, lk, cfg.d_model) (bs, lk, cfg.d_model)) = false) := by
  have cancel : ∀ a b : ℕ, a * cfg.d_model = b * cfg.d_model ↔ a = b := by
    intro a b
    constructor
    · intro h; exact Nat.eq_of_mul_eq_mul_right hd h
    · intro h; rw [h]
  constructor
  · rw [mha_forwardShape_isOk_iff]
    simp only [hinv, cancel]
    tauto
  · intro lk hbs hlk
    rw [Bool.eq_false_iff]
    intro hok
    rw [mha_forwardShape_isOk_iff] at hok
    obtain ⟨-, -, -, -, h5, -⟩ := hok
    rw [hinv] at h5
    exact hlk (Nat.eq_of_mul_eq_mul_left hbs (Nat.eq_of_mul_eq_mul_right hd h5))

theorem mha_forwardShape_contract_witness :
    (1 * 2 = 2 ∧ 0 < 2) ∧
    isOk (MultiHeadAttention.forwardShape ⟨2, 1, 2⟩ (4, 5, 2) (4, 5, 2) (4, 5, 2)) = true ∧
    isOk (MultiHeadAttention.forwardShape ⟨2, 1, 2⟩ (4, 5, 2) (4, 6, 2) (4, 6, 2)) = false :=
  ⟨⟨rfl, by decide⟩,
    (mha_forwardShape_contract ⟨2, 1, 2⟩ 4 5 (4, 5, 2) (4, 5, 2) rfl (by decide)).1.mpr
      (by decide),
    (mha_forwardShape_contract ⟨2, 1, 2⟩ 4 5 (4, 6, 2) (4, 6, 2) rfl (by decide)).2 6
      (by decide) (by decide)⟩

/-- C2: in `MSDeformableAttention.forward`, attention logits are softmaxed
jointly over the combined `n_levels*n_points` axis per head, so the weights
sum to `1` across all (level, point) pairs together for every
(batch, query, head). -/
theorem msda_attn_weights_sum (cfg : MSDeformableAttentionCfg) (W : LinearR)
    (query : ℕ → ℕ → ℕ → ℝ) (b q h : ℕ)
    (hL : 0 < cfg.n_levels) (hP : 0 < cfg.n_points) :
    ∑ l ∈ range cfg.n_levels, ∑ p ∈ range cfg.n_points,
      msdaAttnWeights cfg W query b q h l p = 1 := by
  unfold msdaAttnWeights
  rw [sum_range_mul_sum cfg.n_levels cfg.n_points]
  exact softmaxR_sum _ (Nat.mul_pos hL hP) _

theorem msda_attn_weights_sum_witness :
    (0 < 2 ∧ 0 < 3) ∧
    ∑ l ∈ range 2, ∑ p ∈ range 3,
      msdaAttnWeights ⟨4, 1, 2, 3⟩ ⟨fun _ _ => 0, fun _ => 0⟩ (fun _ _ _ => 0) 0 0 0 l p = 1 :=
  ⟨by decide,
    msda_attn_weights_sum ⟨4, 1, 2, 3⟩ ⟨fun _ _ => 0, fun _ => 0⟩ (fun _ _ _ => 0) 0 0 0
      (by decide) (by decide)⟩

/-- C1: the absolute sampling locations, piecewise in the trailing dimension
of `reference_points`: for dimension 2, `location = ref_xy + offset / (W, H)`
(the spatial shape flipped to `(W, H)` order), for dimension 4,
`location = ref_xy + offset / n_points * ref_wh * 0.5`; and whenever the raw
offset vector is zero the location equals the reference point's (x, y) part
exactly (independent of `ref_wh` in the 4-dimensional case). -/
theorem msda_sampling_locations (cfg : MSDeformableAttentionCfg)
    (ref ref4 : ℕ → ℕ → ℕ → ℕ → ℝ) (offsets : ℕ → ℕ → ℕ → ℕ → ℕ → ℕ → ℝ)
    (shapes : ℕ → ℕ → ℕ) (b q h l p : ℕ) :
    (samplingLocations2 ref offsets shapes b q h l p 0 =
      ref b q l 0 + offsets b q h l p 0 / (shapes l 1 : ℝ)) ∧
    (samplingLocations2 ref offsets shapes b q h l p 1 =
      ref b q l 1 + offsets b q h l p 1 / (shapes l 0 : ℝ)) ∧
    (samplingLocations4 cfg ref4 offsets b q h l p 0 =
      ref4 b q l 0 + offsets b q h l p 0 / (cfg.n_points : ℝ) * ref4 b q l 2 * 0.5) ∧
    (samplingLocations4 cfg ref4 offsets b q h l p 1 =
      ref4 b q l 1 + offsets b q h l p 1 / (cfg.n_points : ℝ) * ref4 b q l 3 * 0.5) ∧
    ((∀ c, c < 2 → offsets b q h l p c = 0) →
      (∀ c, c < 2 → samplingLocations2 ref offsets shapes b q h l p c = ref b q l c) ∧
      (∀ c, c < 2 → samplingLocations4 cfg ref4 offsets b q h l p c = ref4 b q l c)) := by
  refine ⟨rfl, rfl, rfl, rfl, fun h0 => ⟨fun c hc => ?_, fun c hc => ?_⟩⟩
  · simp [samplingLocations2, h0 c hc]
  · simp [samplingLocations4, h0 c hc]

theorem msda_sampling_locations_witness :
    ((∀ c, c < 2 → (fun (_ _ _ _ _ _ : ℕ) => (0 : ℝ)) 0 0 0 0 0 c = 0) ∧ (0 : ℕ) < 2) ∧
    samplingLocations2 (fun _ _ _ c => (c : ℝ) + 7) (fun _ _ _ _ _ _ => 0)
      (fun _ c => c + 2) 0 0 0 0 0 0 = 7 ∧
    samplingLocations4 ⟨8, 2, 1, 3⟩ (fun _ _ _ c => (c : ℝ) + 7) (fun _ _ _ _ _ _ => 0)
      0 0 0 0 0 0 = 7 := by
  have h := msda_sampling_locations ⟨8, 2, 1, 3⟩ (fun _ _ _ c => (c : ℝ) + 7)
    (fun _ _ _ c => (c : ℝ) + 7) (fun _ _ _ _ _ _ => 0) (fun _ c => c + 2) 0 0 0 0 0
  have h0 : ∀ c, c < 2 → (fun (_ _ _ _ _ _ : ℕ) => (0 : ℝ)) 0 0 0 0 0 c = 0 :=
    fun _ _ => rfl
  refine ⟨⟨h0, by decide⟩, ?_, ?_⟩
  · have := ((h.2.2.2.2) h0).1 0 (by decide)
    simpa using this
  · have := ((h.2.2.2.2) h0).2 0 (by decide)
    simpa using this

/-- C4: `MultiHeadAttention.forward` scales the dot-product scores by exactly
`1/sqrt(head_dim)`, adds a given mask elementwise to the scores before
normalization, softmaxes along the key dimension so the attention weights sum
to `1` over the key axis for every (batch, head, query), and produces an
output whose shape equals the query's shape. -/
theorem mha_forward_contract (cfg : MultiHeadAttentionCfg) (Wq Wk : LinearR)
    (query key : ℕ → ℕ → ℕ → ℝ) (mask : ℕ → ℕ → ℕ → ℕ → ℝ) (seq_len b h n m : ℕ)
    (hs : 0 < seq_len) (hinv : cfg.nhead * cfg.head_dim = cfg.d_model) :
    (mhaScores cfg Wq Wk query key b h n m =
      (∑ k ∈ range cfg.head_dim,
          mhaHeads cfg Wq query b h n k * mhaHeads cfg Wk key b h m k) *
        (1 / Real.sqrt cfg.head_dim)) ∧
    (mhaMaskedScores cfg Wq Wk query key (some mask) b h n m =
      mhaScores cfg Wq Wk query key b h n m + mask b h n m) ∧
    (∑ j ∈ range seq_len,
      mhaAttnWeights cfg Wq Wk query key (some mask) seq_len b h n j = 1) ∧
    (∑ j ∈ range seq_len,
      mhaAttnWeights cfg Wq Wk query key none seq_len b h n j = 1) ∧
    (∀ bs len, MultiHeadAttention.forwardShape cfg (bs, len, cfg.d_model)
      (bs, len, cfg.d_model) (bs, len, cfg.d_model) = .ok (bs, len, cfg.d_model)) := by
  refine ⟨?_, rfl, ?_, ?_, ?_⟩
  · rw [mhaScores, div_eq_mul_inv, one_div]
  · exact softmaxR_sum seq_len hs _
  · exact softmaxR_sum seq_len hs _
  · intro bs len
    simp [MultiHeadAttention.forwardShape, hinv]

theorem mha_forward_contract_witness :
    ((0 : ℕ) < 1 ∧ 1 * 2 = 2) ∧
    (∑ j ∈ range 1,
      mhaAttnWeights ⟨2, 1, 2⟩ ⟨fun _ _ => 0, fun _ => 0⟩ ⟨fun _ _ => 0, fun _ => 0⟩
        (fun _ _ _ => 0) (fun _ _ _ => 0) (some fun _ _ _ _ => 0) 1 0 0 0 j = 1) ∧
    MultiHeadAttention.forwardShape ⟨2, 1, 2⟩ (3, 4, 2) (3, 4, 2) (3, 4, 2) =
      .ok (3, 4, 2) := by
  have h := mha_forward_contract ⟨2, 1, 2⟩ ⟨fun _ _ => 0, fun _ => 0⟩
    ⟨fun _ _ => 0, fun _ => 0⟩ (fun _ _ _ => 0) (fun _ _ _ => 0) (fun _ _ _ _ => 0)
    1 0 0 0 0 (by decide) rfl
  exact ⟨⟨by decide, rfl⟩, h.2.2.1, h.2.2.2.2 3 4⟩

/-- C5: `value_level_start_index` is accepted but never read:
`MSDeformableAttention.forward` gives identical outputs for any two values of
it, all other arguments equal — level slicing derives solely from
`value_spatial_shapes`, so an inconsistent start index is neither rejected
nor does it affect the result. -/
theorem msda_forward_ignores_level_start (cfg : MSDeformableAttentionCfg)
    (Wv Woff Wattn Wout : LinearR) (query : ℕ → ℕ → ℕ → ℝ)
    (ref : ℕ → ℕ → ℕ → ℕ → ℝ) (refDim : ℕ) (value : ℕ → ℕ → ℕ → ℝ)
    (shapes : ℕ → ℕ → ℕ) (lsi lsi' : ℕ → ℕ) (msk : Option (ℕ → ℕ → ℝ)) :
    msdaForward cfg Wv Woff Wattn Wout query ref refDim value shapes lsi msk =
      msdaForward cfg Wv Woff Wattn Wout query ref refDim value shapes lsi' msk := rfl

/-- C7: `MSDeformableAttention.forward` raises exactly when the trailing
dimension of `reference_points` is neither 2 nor 4, and the error is produced
by the location branch itself, before any sampling; for trailing dimension 2
or 4 the forward call returns normally. -/
theorem msda_forward_refdim (cfg : MSDeformableAttentionCfg)
    (Wv Woff Wattn Wout : LinearR) (query : ℕ → ℕ → ℕ → ℝ)
    (ref : ℕ → ℕ → ℕ → ℕ → ℝ) (refDim : ℕ) (value : ℕ → ℕ → ℕ → ℝ)
    (shapes : ℕ → ℕ → ℕ) (lsi : ℕ → ℕ) (msk : Option (ℕ → ℕ → ℝ)) :
    (refDim ≠ 2 → refDim ≠ 4 →
      msdaForward cfg Wv Woff Wattn Wout query ref refDim value shapes lsi msk =
        .error ("ValueError: Last dim of reference_points must be 2 or 4, got " ++
          toString refDim)) ∧
    (refDim = 2 ∨ refDim = 4 →
      isOk (msdaForward cfg Wv Woff Wattn Wout query ref refDim value shapes lsi msk) =
        true) := by
  constructor
  · intro h2 h4
    simp [msdaForward, h2, h4]
  · rintro (rfl | rfl) <;> simp [msdaForward, isOk]

theorem msda_forward_refdim_witness :
    ((3 : ℕ) ≠ 2 ∧ (3 : ℕ) ≠ 4) ∧
    msdaForward ⟨4, 2, 1, 1⟩ ⟨fun _ _ => 0, fun _ => 0⟩ ⟨fun _ _ => 0, fun _ => 0⟩
        ⟨fun _ _ => 0, fun _ => 0⟩ ⟨fun _ _ => 0, fun _ => 0⟩ (fun _ _ _ => 0)
        (fun _ _ _ _ => 0) 3 (fun _ _ _ => 0) (fun _ _ => 1) (fun _ => 0) none =
      .error ("ValueError: Last dim of reference_points must be 2 or 4, got " ++
        toString (3 : ℕ)) ∧
    isOk (msdaForward ⟨4, 2, 1, 1⟩ ⟨fun _ _ => 0, fun _ => 0⟩ ⟨fun _ _ => 0, fun _ => 0⟩
        ⟨fun _ _ => 0, fun _ => 0⟩ ⟨fun _ _ => 0, fun _ => 0⟩ (fun _ _ _ => 0)
        (fun _ _ _ _ => 0) 2 (fun _ _ _ => 0) (fun _ _ => 1) (fun _ => 0) none) = true :=
  ⟨⟨by decide, by decide⟩,
    (msda_forward_refdim ⟨4, 2, 1, 1⟩ _ _ _ _ _ _ 3 _ _ _ none).1 (by decide) (by decide),
    (msda_forward_refdim ⟨4, 2, 1, 1⟩ _ _ _ _ _ _ 2 _ _ _ none).2 (Or.inl rfl)⟩

/-- `div_term` equals `10000 ^ (-(2i/d_model))` in `rpow` form. -/
theorem divTerm_rpow (d i : ℕ) :
    PositionEmbedding.divTerm d i = ((10000 : ℝ) ^ ((2 * i : ℝ) / (d : ℝ)))⁻¹ := by
  unfold PositionEmbedding.divTerm
  rw [Real.rpow_def_of_pos (by norm_num : (0 : ℝ) < 10000), ← Real.exp_neg]
  congr 1
  push_cast
  ring

/-- C9: the precomputed position table has even channels
`sin(position / 10000^(2i/d_model))` and odd channels `cos` of the same
argument; row 0 is the `(0, 1, 0, 1, ...)` pattern; and forward returns the
input plus the table row of the sequence position, independent of the batch
index. -/
theorem position_embedding_table (d_model max_len : ℕ) (x : ℕ → ℕ → ℕ → ℝ)
    (b s c pos i : ℕ) :
    (pos < max_len →
      PositionEmbedding.pe d_model max_len pos (2 * i) =
        Real.sin ((pos : ℝ) / (10000 : ℝ) ^ ((2 * i : ℝ) / (d_model : ℝ))) ∧
      PositionEmbedding.pe d_model max_len pos (2 * i + 1) =
        Real.cos ((pos : ℝ) / (10000 : ℝ) ^ ((2 * i : ℝ) / (d_model : ℝ)))) ∧
    (0 < max_len →
      PositionEmbedding.pe d_model max_len 0 (2 * i) = 0 ∧
      PositionEmbedding.pe d_model max_len 0 (2 * i + 1) = 1) ∧
    PositionEmbedding.forward d_model max_len x b s c =
      x b s c + PositionEmbedding.pe d_model max_len s c := by
  have heven : (2 * i) % 2 = 0 := by omega
  have hodd : ¬ ((2 * i + 1) % 2 = 0) := by omega
  have hdiv1 : 2 * i / 2 = i := by omega
  have hdiv2 : (2 * i + 1) / 2 = i := by omega
  refine ⟨fun hpos => ⟨?_, ?_⟩, fun hmax => ⟨?_, ?_⟩, rfl⟩
  · simp only [PositionEmbedding.pe, if_pos hpos, if_pos heven, hdiv1, divTerm_rpow,
      ← div_eq_mul_inv]
  · simp only [PositionEmbedding.pe, if_pos hpos, if_neg hodd, hdiv2, divTerm_rpow,
      ← div_eq_mul_inv]
  · simp only [PositionEmbedding.pe, if_pos hmax, if_pos heven]
    simp
  · simp only [PositionEmbedding.pe, if_pos hmax, if_neg hodd]
    simp

theorem position_embedding_table_witness :
    ((1 : ℕ) < 5 ∧ (0 : ℕ) < 5) ∧
    PositionEmbedding.pe 2 5 1 (2 * 0) =
      Real.sin ((1 : ℝ) / (10000 : ℝ) ^ ((2 * 0 : ℝ) / (2 : ℝ))) ∧
    PositionEmbedding.pe 2 5 0 (2 * 0) = 0 ∧
    PositionEmbedding.pe 2 5 0 (2 * 0 + 1) = 1 ∧
    PositionEmbedding.forward 2 5 (fun _ _ _ => 3) 0 0 0 =
      (fun _ _ _ => (3 : ℝ)) 0 0 0 + PositionEmbedding.pe 2 5 0 0 := by
  have h := position_embedding_table 2 5 (fun _ _ _ => 3) 0 0 0 1 0
  refine ⟨⟨by decide, by decide⟩, ?_, (h.2.1 (by decide)).1, (h.2.1 (by decide)).2, h.2.2⟩
  have h1 := (h.1 (by decide)).1
  norm_num at h1 ⊢
  exact h1

/-- A row that is identically zero interpolates to zero. -/
theorem gsRow_zero_of_zero_row {K : Type} [LinearOrderedField K] [FloorRing K]
    (row : ℤ → K) (ix : K) (h : ∀ xx, row xx = 0) : gsRow row ix = 0 := by
  simp [gsRow, h]

/-- If the unnormalized x-coordinate is at most `-1`, the interpolated row
value is zero (both touched pixels are out of range, or the in-range one has
weight zero). -/
theorem gsRow_zero_left {K : Type} [LinearOrderedField K] [FloorRing K]
    (H W : ℕ) (v : ℤ → ℤ → K) (y : ℤ) (ix : K) (hix : ix ≤ -1) :
    gsRow (gsPix H W v y) ix = 0 := by
  have hfl : ⌊ix⌋ ≤ -1 := by
    have h1 : ⌊ix⌋ ≤ ⌊(-1 : K)⌋ := Int.floor_le_floor hix
    have h2 : ⌊(-1 : K)⌋ = -1 := by
      rw [show (-1 : K) = ((-1 : ℤ) : K) by push_cast; ring, Int.floor_intCast]
    omega
  rcases eq_or_lt_of_le hfl with heq | hlt
  · have hge : (-1 : K) ≤ ix := by
      have h2 := Int.floor_le ix
      rw [heq] at h2
      simpa using h2
    have hix1 : ix = -1 := le_antisymm hix hge
    have hp : gsPix H W v y (-1) = 0 := by
      unfold gsPix
      rw [if_neg]
      intro hc
      omega
    rw [gsRow, heq, hix1, hp]
    push_cast
    ring
  · have hp0 : gsPix H W v y ⌊ix⌋ = 0 := by
      unfold gsPix
      rw [if_neg]
      intro hc
      omega
    have hp1 : gsPix H W v y (⌊ix⌋ + 1) = 0 := by
      unfold gsPix
      rw [if_neg]
      intro hc
      omega
    rw [gsRow, hp0, hp1]
    ring

/-- If the unnormalized x-coordinate is at least `W`, the interpolated row
value is zero. -/
theorem gsRow_zero_right {K : Type} [LinearOrderedField K] [FloorRing K]
    (H W : ℕ) (v : ℤ → ℤ → K) (y : ℤ) (ix : K) (hix : (W : K) ≤ ix) :
    gsRow (gsPix H W v y) ix = 0 := by
  have hfl : (W : ℤ) ≤ ⌊ix⌋ := Int.le_floor.mpr (by exact_mod_cast hix)
  have hp0 : gsPix H W v y ⌊ix⌋ = 0 := by
    unfold gsPix
    rw [if_neg]
    intro hc
    omega
  have hp1 : gsPix H W v y (⌊ix⌋ + 1) = 0 := by
    unfold gsPix
    rw [if_neg]
    intro hc
    omega
  rw [gsRow, hp0, hp1]
  ring

/-- Bilinear interpolation is zero when the x-coordinate is a full pixel out
of range on either side. -/
theorem gsInterp_zero_of_x {K : Type} [LinearOrderedField K] [FloorRing K]
    (H W : ℕ) (v : ℤ → ℤ → K) (ix iy : K) (hix : ix ≤ -1 ∨ (W : K) ≤ ix) :
    gsInterp H W v ix iy = 0 := by
  rcases hix with h | h
  · rw [gsInterp, gsRow_zero_left H W v _ ix h, gsRow_zero_left H W v _ ix h]
    ring
  · rw [gsInterp, gsRow_zero_right H W v _ ix h, gsRow_zero_right H W v _ ix h]
    ring

/-- Bilinear interpolation is zero when the y-coordinate is a full pixel out
of range on either side. -/
theorem gsInterp_zero_of_y {K : Type} [LinearOrderedField K] [FloorRing K]
    (H W : ℕ) (v : ℤ → ℤ → K) (ix iy : K) (hiy : iy ≤ -1 ∨ (H : K) ≤ iy) :
    gsInterp H W v ix iy = 0 := by
  rcases hiy with h | h
  · have hfl : ⌊iy⌋ ≤ -1 := by
      have h1 : ⌊iy⌋ ≤ ⌊(-1 : K)⌋ := Int.floor_le_floor h
      have h2 : ⌊(-1 : K)⌋ = -1 := by
        rw [show (-1 : K) = ((-1 : ℤ) : K) by push_cast; ring, Int.floor_intCast]
      omega
    rcases eq_or_lt_of_le hfl with heq | hlt
    · have hge : (-1 : K) ≤ iy := by
        have h2 := Int.floor_le iy
        rw [heq] at h2
        simpa using h2
      have hiy1 : iy = -1 := le_antisymm h hge
      have hrow : gsRow (gsPix H W v (-1)) ix = 0 := by
        refine gsRow_zero_of_zero_row _ _ (fun xx => ?_)
        unfold gsPix
        rw [if_neg]
        intro hc
        omega
      rw [gsInterp, heq, hiy1, hrow]
      push_cast
      ring
    · have hrow0 : gsRow (gsPix H W v ⌊iy⌋) ix = 0 := by
        refine gsRow_zero_of_zero_row _ _ (fun xx => ?_)
        unfold gsPix
        rw [if_neg]
        intro hc
        omega
      have hrow1 : gsRow (gsPix H W v (⌊iy⌋ + 1)) ix = 0 := by
        refine gsRow_zero_of_zero_row _ _ (fun xx => ?_)
        unfold gsPix
        rw [if_neg]
        intro hc
        omega
      rw [gsInterp, hrow0, hrow1]
      ring
  · have hfl : (H : ℤ) ≤ ⌊iy⌋ := Int.le_floor.mpr (by exact_mod_cast h)
    have hrow0 : gsRow (gsPix H W v ⌊iy⌋) ix = 0 := by
      refine gsRow_zero_of_zero_row _ _ (fun xx => ?_)
      unfold gsPix
      rw [if_neg]
      intro hc
      omega
    have hrow1 : gsRow (gsPix H W v (⌊iy⌋ + 1)) ix = 0 := by
      refine gsRow_zero_of_zero_row _ _ (fun xx => ?_)
      unfold gsPix
      rw [if_neg]
      intro hc
      omega
    rw [gsInterp, hrow0, hrow1]
    ring

/-- C3 counterexample: locations are converted by `grid = 2*location - 1`, but
a grid coordinate outside `[-1, 1]` need not contribute zero: for location
`x = -1/40` the grid coordinate `2·(-1/40) - 1 = -21/20 < -1`, yet bilinear
sampling of an all-ones `1×1` plane at it returns `19/40 ≠ 0` (the zero pad
is blended with the in-range pixel over the half-pixel margin). -/
theorem grid_sample_margin_counterexample :
    (2 * (-1 / 40 : ℚ) - 1 < -1) ∧
    gridSample 1 1 (fun _ _ => (1 : ℚ)) (2 * (-1 / 40 : ℚ) - 1) (2 * (1 / 2 : ℚ) - 1) =
      19 / 40 ∧ (19 / 40 : ℚ) ≠ 0 := by
  refine ⟨by norm_num, ?_, by norm_num⟩
  have hx : ((2 * (-1 / 40 : ℚ) - 1 + 1) * (1 : ℕ) - 1) / 2 = -21 / 40 := by norm_num
  have hy : ((2 * (1 / 2 : ℚ) - 1 + 1) * (1 : ℕ) - 1) / 2 = 0 := by norm_num
  rw [gridSample, hx, hy]
  have hfx : ⌊(-21 / 40 : ℚ)⌋ = -1 := by norm_num
  have hfy : ⌊(0 : ℚ)⌋ = 0 := by norm_num
  rw [gsInterp, hfy, gsRow, gsRow, hfx]
  norm_num [gsPix]

/-- C3 (amended): sampling locations are converted to the `[-1, 1]` grid
convention by `grid = 2*location - 1`, and a sampling coordinate contributes
exactly zero (zero padding, no wraparound, no clamping) whenever it lies at
least `1/W` (x) resp. `1/H` (y) outside `[-1, 1]` — i.e. beyond the one-pixel
margin at which bilinear blending with the zero pad ends. -/
theorem grid_sample_boundary (loc : ℕ → ℕ → ℕ → ℕ → ℕ → ℕ → ℝ) (b q h l p c : ℕ)
    (H W : ℕ) (hH : 0 < H) (hW : 0 < W) (v : ℤ → ℤ → ℚ) (gx gy : ℚ)
    (hout : gx ≤ -1 - 1 / W ∨ 1 + 1 / W ≤ gx ∨ gy ≤ -1 - 1 / H ∨ 1 + 1 / H ≤ gy) :
    samplingGrids loc b q h l p c = 2 * loc b q h l p c - 1 ∧
    gridSample H W v gx gy = 0 := by
  refine ⟨rfl, ?_⟩
  have hWQ : (0 : ℚ) < (W : ℚ) := by exact_mod_cast hW
  have hHQ : (0 : ℚ) < (H : ℚ) := by exact_mod_cast hH
  unfold gridSample
  rcases hout with hx | hx | hy | hy
  · refine gsInterp_zero_of_x _ _ _ _ _ (Or.inl ?_)
    have h2 : gx + 1 ≤ -(1 / W) := by linarith
    have h3 : (gx + 1) * W ≤ -(1 / W) * W := mul_le_mul_of_nonneg_right h2 hWQ.le
    rw [neg_mul, one_div, inv_mul_cancel₀ hWQ.ne'] at h3
    linarith
  · refine gsInterp_zero_of_x _ _ _ _ _ (Or.inr ?_)
    have h2 : (2 : ℚ) + 1 / W ≤ gx + 1 := by linarith
    have h3 : ((2 : ℚ) + 1 / W) * W ≤ (gx + 1) * W := mul_le_mul_of_nonneg_right h2 hWQ.le
    rw [add_mul, one_div, inv_mul_cancel₀ hWQ.ne'] at h3
    linarith
  · refine gsInterp_zero_of_y _ _ _ _ _ (Or.inl ?_)
    have h2 : gy + 1 ≤ -(1 / H) := by linarith
    have h3 : (gy + 1) * H ≤ -(1 / H) * H := mul_le_mul_of_nonneg_right h2 hHQ.le
    rw [neg_mul, one_div, inv_mul_cancel₀ hHQ.ne'] at h3
    linarith
  · refine gsInterp_zero_of_y _ _ _ _ _ (Or.inr ?_)
    have h2 : (2 : ℚ) + 1 / H ≤ gy + 1 := by linarith
    have h3 : ((2 : ℚ) + 1 / H) * H ≤ (gy + 1) * H := mul_le_mul_of_nonneg_right h2 hHQ.le
    rw [add_mul, one_div, inv_mul_cancel₀ hHQ.ne'] at h3
    linarith

theorem grid_sample_boundary_witness :
    ((0 : ℕ) < 1 ∧ (-3 : ℚ) ≤ -1 - 1 / (1 : ℕ)) ∧
    samplingGrids (fun _ _ _ _ _ _ => 0) 0 0 0 0 0 0 =
      2 * (fun _ _ _ _ _ _ => (0 : ℝ)) 0 0 0 0 0 0 - 1 ∧
    gridSample 1 1 (fun _ _ => (1 : ℚ)) (-3) 0 = 0 := by
  have h := grid_sample_boundary (fun _ _ _ _ _ _ => 0) 0 0 0 0 0 0 1 1
    (by decide) (by decide) (fun _ _ => 1) (-3) 0 (Or.inl (by norm_num))
  exact ⟨⟨by decide, by norm_num⟩, h.1, h.2⟩

end RTDetr
